import Mathlib

/-!
Verification of the core of `file_integrity_monitor.py` (class
`FileIntegrityMonitor`): digest computation (`calculate_hash`), snapshot
persistence (`load_hashes` / `save_hashes`), directory scanning
(`monitor_directory`) and change classification (`compare_hashes`).

Modelling conventions:
* Python strings (paths, digests, file contents of the JSON store) are
  `List Char`; file bytes are `List Nat`.
* A Python `dict` is an association list with pairwise distinct keys kept in
  insertion order; `dictInsert` mirrors `d[k] = v` (update in place, append
  if the key is new).
* The filesystem seen by `os.walk` / `os.path.exists` is an explicit tree
  (`FSNode`); `none` passed for the root models a path that does not exist.
* Output (`print` calls) is modelled as explicitly returned data: emitted
  `ChangeRecord`s, read-error paths and the missing-directory message flag.
* The `hashlib.sha256` primitive is an external library; it is modelled by a
  deterministic executable accumulator fed with the same 64 KiB chunks the
  Python loop reads.  Every claim uses digests only through equality and
  determinism, never through particular digest values.
* `json.dump(d, f, indent=4)` / `json.load` are external library calls;
  they are modelled by an executable serializer/parser for string-to-string
  objects producing the exact textual layout `json.dump` emits
  (`\x7b\n    "k": "v",\n ...\x7d`), with string escaping.  `json.dump`
  additionally escapes control and non-ASCII characters as `\uXXXX`; that
  layer is a bijective recoding and is elided here.
-/

namespace FIM

/-- Python string, modelled as a list of characters. -/
abbrev Str := List Char

/-- Python dict from file path to digest (`self.file_hashes`), as an
insertion-ordered association list. -/
abbrev Snapshot := List (Str × Str)

/-- Keys of a dict, in iteration order (`d.keys()`). -/
def keys (m : Snapshot) : List Str := m.map Prod.fst

/-- Dict lookup `m[k]` / membership `k in m`: the entry for `k` (keys are
unique in a dict, so first match is the only match). -/
def lookup? (p : Str) : Snapshot → Option Str
  | [] => none
  | e :: rest => if e.1 = p then some e.2 else lookup? p rest

/-- Dict assignment `m[k] = v`: update the existing entry in place, or
append a new one (Python dicts preserve insertion order). -/
def dictInsert (m : Snapshot) (k v : Str) : Snapshot :=
  if (lookup? k m).isSome then
    m.map (fun e => if e.1 = k then (k, v) else e)
  else m ++ [(k, v)]

/-! ### Digest engine (`calculate_hash`, lines 13-26) -/

/-- Successive 64 KiB chunks, as produced by the `f.read(65536)` loop. -/
def chunks : List Nat → List (List Nat)
  | [] => []
  | b :: rest => ((b :: rest).take 65536) :: chunks ((b :: rest).drop 65536)
  termination_by l => l.length
  decreasing_by simp [List.length_drop]; omega

/-- Model of feeding one chunk into the streaming `sha256.update`
accumulator (the compression function itself is library code; only
determinism and equality of digests matter to the specification). -/
def sha256Update (acc : Nat) (chunk : List Nat) : Nat :=
  chunk.foldl (fun a b => (a * 257 + b + 1) % (2 ^ 256)) acc

/-- Model of `sha256.hexdigest()` after feeding all chunks of the content:
a deterministic, stable hex string of the accumulated state. -/
def sha256Hex (content : List Nat) : Str :=
  Nat.toDigits 16 ((chunks content).foldl sha256Update 0)

/-- Lines 13-26: `calculate_hash`.  Opening an unreadable file raises
`IOError`/`PermissionError`, caught and turned into `None`; otherwise the
file's bytes are read in 64 KiB chunks and the hex digest returned. -/
def calculate_hash (readable : Bool) (content : List Nat) : Option Str :=
  if readable then some (sha256Hex content) else none

/-! ### JSON serialization (model of `json.dump` / `json.load`) -/

/-- Opening brace character (ASCII 123). -/
def lbrace : Char := '\x7b'

/-- Closing brace character (ASCII 125). -/
def rbrace : Char := '\x7d'

/-- JSON escaping of one character inside a string literal. -/
def escapeChar (c : Char) : List Char :=
  if c = '"' then ['\\', '"']
  else if c = '\\' then ['\\', '\\']
  else if c = '\n' then ['\\', 'n']
  else if c = '\t' then ['\\', 't']
  else if c = '\r' then ['\\', 'r']
  else [c]

/-- JSON escaping of a whole string (content between the quotes). -/
def escapeStr : Str → List Char
  | [] => []
  | c :: rest => escapeChar c ++ escapeStr rest

/-- Inverse of `escapeChar` on the character following a backslash. -/
def unescapeChar (c : Char) : Option Char :=
  if c = '"' then some '"'
  else if c = '\\' then some '\\'
  else if c = 'n' then some '\n'
  else if c = 't' then some '\t'
  else if c = 'r' then some '\r'
  else none

/-- Serialization of one `"key": "value"` member. -/
def dumpPair (p : Str × Str) : List Char :=
  '"' :: escapeStr p.1 ++ '"' :: ':' :: ' ' :: '"' :: (escapeStr p.2 ++ ['"'])

/-- Four-space indentation used by `json.dump(..., indent=4)`. -/
def indent4 : List Char := [' ', ' ', ' ', ' ']

/-- Serialization of the member list of a non-empty object with
`indent=4`: each member on its own indented line, separated by commas. -/
def dumpMembers : List (Str × Str) → List Char
  | [] => []
  | [p] => indent4 ++ dumpPair p
  | p :: q :: rest => indent4 ++ dumpPair p ++ ',' :: '\n' :: dumpMembers (q :: rest)

/-- Model of `json.dump(d, f, indent=4)` for a string-to-string dict:
the exact text written to the config file. -/
def dumpJson : List (Str × Str) → List Char
  | [] => [lbrace, rbrace]
  | p :: rest => lbrace :: '\n' :: (dumpMembers (p :: rest) ++ ['\n', rbrace])

/-- Whitespace skipping in the parser. -/
def skipWs : List Char → List Char
  | [] => []
  | c :: rest =>
    if c = ' ' ∨ c = '\n' ∨ c = '\t' ∨ c = '\r' then skipWs rest else c :: rest

/-- String-literal lexer state machine: when the flag is `true` the
previous character was an unconsumed backslash.  Decodes the body of a
JSON string literal; `none` on malformed escapes or a missing closing
quote. -/
def pjsA : Bool → List Char → Option (List Char × List Char)
  | _, [] => none
  | true, d :: rest =>
    match unescapeChar d with
    | none => none
    | some e => (pjsA false rest).map (fun p => (e :: p.1, p.2))
  | false, c :: rest =>
    if c = '"' then some ([], rest)
    else if c = '\\' then pjsA true rest
    else (pjsA false rest).map (fun p => (c :: p.1, p.2))

/-- Body of a JSON string literal after the opening quote: the decoded
content and the input following the closing quote. -/
def parseJStringAux : List Char → Option (List Char × List Char) := pjsA false

/-- One `"key": "value"` member and the remaining input. -/
def parsePair (l : List Char) : Option ((Str × Str) × List Char) :=
  match l with
  | '"' :: rest =>
    match parseJStringAux rest with
    | none => none
    | some (k, rest2) =>
      match skipWs rest2 with
      | ':' :: rest3 =>
        match skipWs rest3 with
        | '"' :: rest4 => (parseJStringAux rest4).map (fun p => ((k, p.1), p.2))
        | _ => none
      | _ => none
  | _ => none

/-- Members of a non-empty object up to and including the closing brace;
fuel bounds the recursion (one unit per member suffices). -/
def parseMembers : Nat → List Char → Option (List (Str × Str))
  | 0, _ => none
  | fuel + 1, l =>
    match parsePair l with
    | none => none
    | some (p, rest) =>
      match skipWs rest with
      | c :: rest2 =>
        if c = ',' then (parseMembers fuel (skipWs rest2)).map (fun ps => p :: ps)
        else if c = rbrace then (if skipWs rest2 = [] then some [p] else none)
        else none
      | [] => none

/-- Model of `json.load` restricted to string-to-string objects: the list
of members in textual order, or `none` when the text is not such an object
(`json.JSONDecodeError`).  `json.load` can also succeed on other JSON
values (arrays, numbers); those never arise from `save_hashes` and would
break the dict operations downstream, so the model rejects them. -/
def parseJson (l : List Char) : Option (List (Str × Str)) :=
  match skipWs l with
  | c :: rest =>
    if c = lbrace then
      match skipWs rest with
      | d :: rest2 =>
        if d = rbrace then (if skipWs rest2 = [] then some [] else none)
        else parseMembers (l.length + 1) (skipWs rest)
      | [] => none
    else none
  | [] => none

/-- Parsed JSON text turned into the dict `json.load` builds (later
duplicate keys overwrite earlier ones, as in a Python dict literal). -/
def parseSnapshot (s : Str) : Option Snapshot :=
  (parseJson s).map (fun ps => ps.foldl (fun m p => dictInsert m p.1 p.2) [])

/-! ### Snapshot store (`load_hashes` lines 28-35, `save_hashes` lines 37-40) -/

/-- Lines 28-35 together with the `__init__` default: the in-memory
snapshot after construction.  `disk` is the config file's content, `none`
when the file does not exist (`os.path.exists` false).  A missing file
leaves the `\x7b\x7d`-initialised dict empty; a file that fails to parse
(`json.JSONDecodeError`/`IOError`) resets it to empty.  No error is
reported on either path (the code prints nothing here). -/
def load_hashes (disk : Option Str) : Snapshot :=
  match disk with
  | none => []
  | some s => (parseSnapshot s).getD []

/-- Lines 37-40: the config file content after a completed
`save_hashes` (the final state of `json.dump` into the `'w'`-opened file). -/
def save_hashes (s : Snapshot) : Str := dumpJson s

/-- Every initial segment of a character list, shortest first. -/
def initialSegs : List Char → List (List Char)
  | [] => [[]]
  | c :: rest => [] :: (initialSegs rest).map (fun p => c :: p)

/-- Lines 37-40 viewed as on-disk states over time: `open(self.config_file,
'w')` first truncates the file to empty, then `json.dump` appends the
serialized text incrementally.  The list holds the state before the call
and the state after writing each initial segment of the new text; the last
element is the completed save, any other element a state a crash, disk-full
or permission failure can leave behind. -/
def save_hashes_states (disk : Option Str) (s : Snapshot) : List (Option Str) :=
  disk :: (initialSegs (dumpJson s)).map some

/-! ### Filesystem, `os.walk` and the scan (`monitor_directory`, lines 42-59) -/

/-- A filesystem node: a regular file (with readability and byte content)
or a directory with named children. -/
inductive FSNode : Type where
  | file : Bool → List Nat → FSNode
  | dir : List (Str × FSNode) → FSNode
deriving Repr

/-- Model of `os.path.join(root, name)` on a POSIX path without trailing
separator. -/
def pathJoin (dir name : Str) : Str := dir ++ '/' :: name

/-- Regular-file children of a directory: (name, readable, content). -/
def fileEntries (entries : List (Str × FSNode)) : List (Str × Bool × List Nat) :=
  entries.filterMap (fun e =>
    match e.2 with
    | FSNode.file r c => some (e.1, r, c)
    | FSNode.dir _ => none)

mutual
/-- Model of `os.walk(path)`: top-down tuples `(dirpath, regular files of
dirpath)`.  On a non-directory path `os.walk` yields nothing. -/
def walkTuples (path : Str) : FSNode → List (Str × List (Str × Bool × List Nat))
  | FSNode.file _ _ => []
  | FSNode.dir entries => (path, fileEntries entries) :: walkEntries path entries
  termination_by n => sizeOf n
  decreasing_by all_goals (simp; try omega)

/-- Walk of the subdirectories of a directory, in listing order. -/
def walkEntries (path : Str) : List (Str × FSNode) → List (Str × List (Str × Bool × List Nat))
  | [] => []
  | (_, FSNode.file _ _) :: rest => walkEntries path rest
  | (n, FSNode.dir es) :: rest =>
    walkTuples (pathJoin path n) (FSNode.dir es) ++ walkEntries path rest
  termination_by l => sizeOf l
  decreasing_by all_goals (simp; try omega)
end

/-- Lines 50-54, inner loop over one `os.walk` tuple: hash each file,
record it in `current_hashes` when the digest succeeds, otherwise surface
the `Error accessing` message (modelled as the failing path). -/
def scanFolder (dirpath : Str) (files : List (Str × Bool × List Nat))
    (acc : Snapshot × List Str) : Snapshot × List Str :=
  files.foldl (fun a f =>
    match calculate_hash f.2.1 f.2.2 with
    | some h => (dictInsert a.1 (pathJoin dirpath f.1) h, a.2)
    | none => (a.1, a.2 ++ [pathJoin dirpath f.1])) acc

/-- Lines 48-57: builds `current_hashes` (and the surfaced read errors)
from the walked tuples; with `recursive=False` the loop `break`s after the
first tuple, so only the root's own files are processed. -/
def scanWalk (ts : List (Str × List (Str × Bool × List Nat))) : Snapshot × List Str :=
  ts.foldl (fun a t => scanFolder t.1 t.2 a) ([], [])

/-! ### Change classification (`compare_hashes`, lines 61-86) -/

/-- A classified change, as printed by `compare_hashes`. -/
inductive ChangeRecord : Type where
  | Modified : Str → ChangeRecord
  | Added : Str → ChangeRecord
  | Deleted : Str → ChangeRecord
deriving DecidableEq, Repr

/-- Lines 67-74, loop body over `current_hashes.items()`: `filepath in
self.file_hashes` with a digest mismatch prints CHANGE DETECTED, absence
prints NEW FILE ADDED, a matching digest prints nothing. -/
def classifyCurrent (prev : Snapshot) (pc : Str × Str) : Option ChangeRecord :=
  match lookup? pc.1 prev with
  | some h => if h ≠ pc.2 then some (ChangeRecord.Modified pc.1) else none
  | none => some (ChangeRecord.Added pc.1)

/-- Lines 77-80, loop body over `self.file_hashes.keys()`: a stored path
absent from `current_hashes` prints FILE DELETED. -/
def classifyPrev (current : Snapshot) (pp : Str × Str) : Option ChangeRecord :=
  if (lookup? pp.1 current).isNone then some (ChangeRecord.Deleted pp.1) else none

/-- Lines 66-80: the records printed by `compare_hashes`, in emission
order: first the pass over `current_hashes` (CHANGE DETECTED / NEW FILE
ADDED), then the pass over the stored keys (FILE DELETED). -/
def compare_records (prev current : Snapshot) : List ChangeRecord :=
  current.filterMap (classifyCurrent prev) ++ prev.filterMap (classifyPrev current)

/-- The monitor's mutable state: `self.file_hashes` and the config file's
on-disk content (`none` = file absent). -/
structure MonitorState : Type where
  file_hashes : Snapshot
  disk : Option Str
deriving Repr

/-- Outcome of `compare_hashes`: the records printed, the state afterwards,
and the returned `changes_detected` (`none` when `save_hashes` raised, in
which case the function never returns but `self.file_hashes` was already
reassigned on line 83). -/
structure CompareResult : Type where
  printed : List ChangeRecord
  state : MonitorState
  ret : Option Bool
deriving Repr

/-- Lines 61-86: `compare_hashes`.  `saveOk` models the environment of the
`save_hashes` call on line 84: `true` when the write succeeds, `false` when
it raises (disk full, permission denied), in which case the exception
propagates after line 83 already replaced `self.file_hashes`. -/
def compare_hashes (saveOk : Bool) (st : MonitorState) (current : Snapshot) :
    CompareResult :=
  let records := compare_records st.file_hashes current
  if saveOk then
    { printed := records,
      state := { file_hashes := current, disk := some (save_hashes current) },
      ret := some (!records.isEmpty) }
  else
    { printed := records,
      state := { file_hashes := current, disk := st.disk },
      ret := none }

/-- Outcome of one `monitor_directory` call. -/
structure RunResult : Type where
  dirMissingMsg : Bool
  readErrors : List Str
  printed : List ChangeRecord
  state : MonitorState
  ret : Option Bool
deriving Repr

/-- Lines 42-59: `monitor_directory`.  `root` is what the path `rootPath`
resolves to (`none` when `os.path.exists` is false, in which case the
missing-directory message is printed and `False` returned with no state
change).  Otherwise `os.walk` is consumed — `break` after the first tuple
when not recursive — and the result handed to `compare_hashes`. -/
def monitor_directory (saveOk : Bool) (root : Option FSNode) (rootPath : Str)
    (recursive : Bool) (st : MonitorState) : RunResult :=
  match root with
  | none =>
    { dirMissingMsg := true, readErrors := [], printed := [],
      state := st, ret := some false }
  | some node =>
    let ts := walkTuples rootPath node
    let ts := if recursive then ts else ts.take 1
    let scanned := scanWalk ts
    let c := compare_hashes saveOk st scanned.1
    { dirMissingMsg := false, readErrors := scanned.2, printed := c.printed,
      state := c.state, ret := c.ret }

/-! ## Dictionary lemmas -/

theorem keys_nil : keys [] = [] := rfl

theorem keys_cons (e : Str × Str) (rest : Snapshot) :
    keys (e :: rest) = e.1 :: keys rest := rfl

theorem keys_append (a b : Snapshot) : keys (a ++ b) = keys a ++ keys b := by
  simp [keys]

theorem mem_keys_of_mem (p h : Str) (m : Snapshot) (hmem : (p, h) ∈ m) :
    p ∈ keys m := by
  unfold keys
  exact List.mem_map.mpr ⟨(p, h), hmem, rfl⟩

theorem lookup?_eq_none_iff (p : Str) (m : Snapshot) :
    lookup? p m = none ↔ p ∉ keys m := by
  induction m with
  | nil => simp [lookup?, keys_nil]
  | cons e rest ih =>
    rw [keys_cons]
    by_cases h : e.1 = p
    · simp [lookup?, h]
    · simp only [lookup?, if_neg h, List.mem_cons, ih]
      constructor
      · intro hnp hor
        rcases hor with h1 | h2
        · exact h h1.symm
        · exact hnp h2
      · intro hall hmem
        exact hall (Or.inr hmem)

theorem lookup?_mem (p h : Str) (m : Snapshot) (hl : lookup? p m = some h) :
    (p, h) ∈ m := by
  induction m with
  | nil => simp [lookup?] at hl
  | cons e rest ih =>
    by_cases he : e.1 = p
    · rw [lookup?, if_pos he] at hl
      obtain ⟨a, b⟩ := e
      have ha : a = p := he
      injection hl with hb
      subst ha; subst hb
      exact List.mem_cons_self _ _
    · rw [lookup?, if_neg he] at hl
      exact List.mem_cons_of_mem _ (ih hl)

theorem mem_keys_of_lookup? (p v : Str) (m : Snapshot) (h : lookup? p m = some v) :
    p ∈ keys m :=
  mem_keys_of_mem p v m (lookup?_mem p v m h)

theorem lookup?_isSome_iff (p : Str) (m : Snapshot) :
    (lookup? p m).isSome = true ↔ p ∈ keys m := by
  cases hx : lookup? p m with
  | none =>
    simp only [Option.isSome_none, Bool.false_eq_true, false_iff]
    exact (lookup?_eq_none_iff p m).mp hx
  | some v =>
    simp only [Option.isSome_some, true_iff]
    exact mem_keys_of_lookup? p v m hx

theorem mem_lookup? (p h : Str) (m : Snapshot) (hm : (keys m).Nodup)
    (hmem : (p, h) ∈ m) : lookup? p m = some h := by
  induction m with
  | nil => simp at hmem
  | cons e rest ih =>
    rw [keys_cons, List.nodup_cons] at hm
    rcases List.mem_cons.mp hmem with heq | htail
    · rw [← heq]
      simp [lookup?]
    · have hne : ¬ e.1 = p := by
        intro hc
        exact hm.1 (hc ▸ mem_keys_of_mem p h rest htail)
      rw [lookup?, if_neg hne]
      exact ih hm.2 htail

theorem keys_dictInsert (m : Snapshot) (k v : Str) :
    keys (dictInsert m k v) = if k ∈ keys m then keys m else keys m ++ [k] := by
  by_cases h : k ∈ keys m
  · rw [if_pos h]
    have hsome : (lookup? k m).isSome = true := (lookup?_isSome_iff k m).mpr h
    unfold dictInsert
    rw [if_pos hsome]
    unfold keys
    rw [List.map_map]
    apply List.map_congr_left
    intro e _
    by_cases he : e.1 = k
    · simp [Function.comp, he]
    · simp [Function.comp, he]
  · rw [if_neg h]
    have hnone : lookup? k m = none := (lookup?_eq_none_iff k m).mpr h
    unfold dictInsert
    rw [hnone]
    simp [keys]

theorem nodup_keys_dictInsert (m : Snapshot) (k v : Str)
    (h : (keys m).Nodup) : (keys (dictInsert m k v)).Nodup := by
  rw [keys_dictInsert]
  by_cases hk : k ∈ keys m
  · rw [if_pos hk]; exact h
  · rw [if_neg hk]
    rw [List.nodup_append]
    refine ⟨h, List.nodup_singleton k, ?_⟩
    intro a ha hb
    simp at hb
    subst hb
    exact hk ha

theorem lookup?_mapUpdate_self (m : Snapshot) (k v : Str)
    (h : (lookup? k m).isSome = true) :
    lookup? k (m.map (fun e => if e.1 = k then (k, v) else e)) = some v := by
  induction m with
  | nil => simp [lookup?] at h
  | cons e rest ih =>
    by_cases he : e.1 = k
    · simp [lookup?, he]
    · rw [lookup?, if_neg he] at h
      simp only [List.map_cons, if_neg he]
      rw [lookup?, if_neg he]
      exact ih h

theorem lookup?_append_single_self (m : Snapshot) (k v : Str)
    (h : lookup? k m = none) :
    lookup? k (m ++ [(k, v)]) = some v := by
  induction m with
  | nil => simp [lookup?]
  | cons e rest ih =>
    by_cases he : e.1 = k
    · rw [lookup?, if_pos he] at h
      simp at h
    · rw [lookup?, if_neg he] at h
      rw [List.cons_append, lookup?, if_neg he]
      exact ih h

theorem lookup?_dictInsert_self (m : Snapshot) (k v : Str) :
    lookup? k (dictInsert m k v) = some v := by
  unfold dictInsert
  by_cases h : (lookup? k m).isSome = true
  · rw [if_pos h]
    exact lookup?_mapUpdate_self m k v h
  · rw [if_neg h]
    apply lookup?_append_single_self
    cases hx : lookup? k m with
    | none => rfl
    | some w => rw [hx] at h; simp at h

theorem lookup?_mapUpdate_ne (m : Snapshot) (k v p : Str) (hkp : ¬ k = p) :
    lookup? p (m.map (fun e => if e.1 = k then (k, v) else e)) = lookup? p m := by
  induction m with
  | nil => rfl
  | cons e rest ih =>
    simp only [List.map_cons]
    by_cases he : e.1 = k
    · rw [if_pos he]
      have hep : ¬ e.1 = p := by rw [he]; exact hkp
      rw [lookup?, if_neg hkp, lookup?, if_neg hep]
      exact ih
    · rw [if_neg he]
      by_cases hep : e.1 = p
      · rw [lookup?, if_pos hep, lookup?, if_pos hep]
      · rw [lookup?, if_neg hep, lookup?, if_neg hep]
        exact ih

theorem lookup?_append_single_ne (m : Snapshot) (k v p : Str) (hkp : ¬ k = p) :
    lookup? p (m ++ [(k, v)]) = lookup? p m := by
  induction m with
  | nil => simp [lookup?, hkp]
  | cons e rest ih =>
    rw [List.cons_append]
    by_cases hep : e.1 = p
    · rw [lookup?, if_pos hep, lookup?, if_pos hep]
    · rw [lookup?, if_neg hep, lookup?, if_neg hep]
      exact ih

theorem lookup?_dictInsert_ne (m : Snapshot) (k v p : Str) (hne : p ≠ k) :
    lookup? p (dictInsert m k v) = lookup? p m := by
  have hkp : ¬ k = p := fun hc => hne hc.symm
  unfold dictInsert
  by_cases h : (lookup? k m).isSome = true
  · rw [if_pos h]
    exact lookup?_mapUpdate_ne m k v p hkp
  · rw [if_neg h]
    exact lookup?_append_single_ne m k v p hkp

/-! ## Classification lemmas -/

theorem modified_mem_compare (prev current : Snapshot)
    (hc : (keys current).Nodup) (p : Str) :
    ChangeRecord.Modified p ∈ compare_records prev current ↔
      ∃ h h', lookup? p prev = some h ∧ lookup? p current = some h' ∧ h ≠ h' := by
  rw [compare_records, List.mem_append]
  constructor
  · rintro (h1 | h2)
    · obtain ⟨⟨q, hq⟩, hqmem, hf⟩ := List.mem_filterMap.mp h1
      cases hl : lookup? q prev with
      | some h0 =>
        simp only [classifyCurrent, hl] at hf
        by_cases hd : h0 = hq
        · simp [hd] at hf
        · simp only [ne_eq, hd, not_false_eq_true, if_true, Option.some.injEq,
            ChangeRecord.Modified.injEq] at hf
          exact ⟨h0, hq, hf ▸ hl, mem_lookup? p hq current hc (hf ▸ hqmem), hd⟩
      | none =>
        simp [classifyCurrent, hl] at hf
    · obtain ⟨⟨q, hq⟩, hqmem, hf⟩ := List.mem_filterMap.mp h2
      by_cases hn : (lookup? q current).isNone <;> simp [classifyPrev, hn] at hf
  · rintro ⟨h, h', hp, hc', hne⟩
    left
    exact List.mem_filterMap.mpr
      ⟨(p, h'), lookup?_mem p h' current hc', by simp [classifyCurrent, hp, hne]⟩

theorem added_mem_compare (prev current : Snapshot) (p : Str) :
    ChangeRecord.Added p ∈ compare_records prev current ↔
      lookup? p prev = none ∧ ∃ h, lookup? p current = some h := by
  rw [compare_records, List.mem_append]
  constructor
  · rintro (h1 | h2)
    · obtain ⟨⟨q, hq⟩, hqmem, hf⟩ := List.mem_filterMap.mp h1
      cases hl : lookup? q prev with
      | some h0 =>
        simp only [classifyCurrent, hl] at hf
        by_cases hd : h0 = hq <;> simp [hd] at hf
      | none =>
        simp only [classifyCurrent, hl, Option.some.injEq,
          ChangeRecord.Added.injEq] at hf
        have hmemk : p ∈ keys current := mem_keys_of_mem p hq current (hf ▸ hqmem)
        have := (lookup?_isSome_iff p current).mpr hmemk
        rcases Option.isSome_iff_exists.mp this with ⟨w, hw⟩
        exact ⟨hf ▸ hl, w, hw⟩
    · obtain ⟨⟨q, hq⟩, hqmem, hf⟩ := List.mem_filterMap.mp h2
      by_cases hn : (lookup? q current).isNone <;> simp [classifyPrev, hn] at hf
  · rintro ⟨hpnone, h, hc'⟩
    left
    exact List.mem_filterMap.mpr
      ⟨(p, h), lookup?_mem p h current hc', by simp [classifyCurrent, hpnone]⟩

theorem deleted_mem_compare (prev current : Snapshot) (p : Str) :
    ChangeRecord.Deleted p ∈ compare_records prev current ↔
      (∃ h, lookup? p prev = some h) ∧ lookup? p current = none := by
  rw [compare_records, List.mem_append]
  constructor
  · rintro (h1 | h2)
    · obtain ⟨⟨q, hq⟩, hqmem, hf⟩ := List.mem_filterMap.mp h1
      cases hl : lookup? q prev with
      | some h0 =>
        simp only [classifyCurrent, hl] at hf
        by_cases hd : h0 = hq <;> simp [hd] at hf
      | none =>
        simp [classifyCurrent, hl] at hf
    · obtain ⟨⟨q, hq⟩, hqmem, hf⟩ := List.mem_filterMap.mp h2
      by_cases hn : (lookup? q current).isNone
      · simp only [classifyPrev, hn, if_true, Option.some.injEq,
          ChangeRecord.Deleted.injEq] at hf
        have hmemk : p ∈ keys prev := mem_keys_of_mem p hq prev (hf ▸ hqmem)
        have := (lookup?_isSome_iff p prev).mpr hmemk
        rcases Option.isSome_iff_exists.mp this with ⟨w, hw⟩
        exact ⟨⟨w, hw⟩, hf ▸ Option.isNone_iff_eq_none.mp hn⟩
      · simp [classifyPrev, hn] at hf
  · rintro ⟨⟨h, hp⟩, hcnone⟩
    right
    refine List.mem_filterMap.mpr ⟨(p, h), lookup?_mem p h prev hp, ?_⟩
    simp [classifyPrev, hcnone]

theorem compare_records_self (m : Snapshot) (hm : (keys m).Nodup) :
    compare_records m m = [] := by
  rw [compare_records, List.append_eq_nil]
  constructor
  · rw [List.filterMap_eq_nil_iff]
    rintro ⟨q, hq⟩ hmem
    simp only [classifyCurrent, mem_lookup? q hq m hm hmem]
    simp
  · rw [List.filterMap_eq_nil_iff]
    rintro ⟨q, hq⟩ hmem
    have hsome : (lookup? q m).isSome = true :=
      (lookup?_isSome_iff q m).mpr (mem_keys_of_mem q hq m hmem)
    simp only [classifyPrev]
    cases hx : lookup? q m with
    | none => rw [hx] at hsome; simp at hsome
    | some w => simp

/-! ## JSON round-trip lemmas -/

theorem pjs_quote (x : List Char) : parseJStringAux ('"' :: x) = some ([], x) := rfl

theorem pjs_esc_quote (x : List Char) :
    parseJStringAux ('\\' :: '"' :: x) =
      (parseJStringAux x).map (fun p => ('"' :: p.1, p.2)) := rfl

theorem pjs_esc_backslash (x : List Char) :
    parseJStringAux ('\\' :: '\\' :: x) =
      (parseJStringAux x).map (fun p => ('\\' :: p.1, p.2)) := rfl

theorem pjs_esc_n (x : List Char) :
    parseJStringAux ('\\' :: 'n' :: x) =
      (parseJStringAux x).map (fun p => ('\n' :: p.1, p.2)) := rfl

theorem pjs_esc_t (x : List Char) :
    parseJStringAux ('\\' :: 't' :: x) =
      (parseJStringAux x).map (fun p => ('\t' :: p.1, p.2)) := rfl

theorem pjs_esc_r (x : List Char) :
    parseJStringAux ('\\' :: 'r' :: x) =
      (parseJStringAux x).map (fun p => ('\r' :: p.1, p.2)) := rfl

theorem pjs_other (c : Char) (x : List Char) (h1 : ¬ c = '"') (h2 : ¬ c = '\\') :
    parseJStringAux (c :: x) = (parseJStringAux x).map (fun p => (c :: p.1, p.2)) := by
  simp only [parseJStringAux, pjsA, if_neg h1, if_neg h2]

theorem escapeChar_other (c : Char) (h1 : ¬ c = '"') (h2 : ¬ c = '\\')
    (h3 : ¬ c = '\n') (h4 : ¬ c = '\t') (h5 : ¬ c = '\r') : escapeChar c = [c] := by
  unfold escapeChar
  rw [if_neg h1, if_neg h2, if_neg h3, if_neg h4, if_neg h5]

theorem pjs_escape (s : Str) (rest : List Char) :
    parseJStringAux (escapeStr s ++ '"' :: rest) = some (s, rest) := by
  induction s with
  | nil => rw [escapeStr, List.nil_append, pjs_quote]
  | cons c s ih =>
    rw [escapeStr, List.append_assoc]
    by_cases h1 : c = '"'
    · subst h1
      rw [show escapeChar '"' = ['\\', '"'] from rfl]
      simp only [List.cons_append, List.nil_append]
      rw [pjs_esc_quote, ih]
      rfl
    · by_cases h2 : c = '\\'
      · subst h2
        rw [show escapeChar '\\' = ['\\', '\\'] from rfl]
        simp only [List.cons_append, List.nil_append]
        rw [pjs_esc_backslash, ih]
        rfl
      · by_cases h3 : c = '\n'
        · subst h3
          rw [show escapeChar '\n' = ['\\', 'n'] from rfl]
          simp only [List.cons_append, List.nil_append]
          rw [pjs_esc_n, ih]
          rfl
        · by_cases h4 : c = '\t'
          · subst h4
            rw [show escapeChar '\t' = ['\\', 't'] from rfl]
            simp only [List.cons_append, List.nil_append]
            rw [pjs_esc_t, ih]
            rfl
          · by_cases h5 : c = '\r'
            · subst h5
              rw [show escapeChar '\r' = ['\\', 'r'] from rfl]
              simp only [List.cons_append, List.nil_append]
              rw [pjs_esc_r, ih]
              rfl
            · rw [escapeChar_other c h1 h2 h3 h4 h5]
              simp only [List.cons_append, List.nil_append]
              rw [pjs_other c _ h1 h2, ih]
              rfl

theorem skipWs_space (x : List Char) : skipWs (' ' :: x) = skipWs x := rfl

theorem skipWs_nl (x : List Char) : skipWs ('\n' :: x) = skipWs x := rfl

theorem skipWs_quote (x : List Char) : skipWs ('"' :: x) = '"' :: x := rfl

theorem skipWs_colon (x : List Char) : skipWs (':' :: x) = ':' :: x := rfl

theorem skipWs_comma (x : List Char) : skipWs (',' :: x) = ',' :: x := rfl

theorem skipWs_lbrace (x : List Char) : skipWs (lbrace :: x) = lbrace :: x := rfl

theorem skipWs_rbrace (x : List Char) : skipWs (rbrace :: x) = rbrace :: x := rfl

theorem skipWs_indent4 (x : List Char) : skipWs (indent4 ++ x) = skipWs x := rfl

theorem parsePair_dump (p : Str × Str) (tail : List Char) :
    parsePair (dumpPair p ++ tail) = some (p, tail) := by
  obtain ⟨k, v⟩ := p
  simp only [dumpPair, List.cons_append, List.append_assoc, List.nil_append]
  simp only [parsePair, pjs_escape, skipWs_colon, skipWs_space, skipWs_quote]
  rfl

theorem dumpPair_cons (p : Str × Str) (tail : List Char) :
    dumpPair p ++ tail = '"' :: (escapeStr p.1 ++ '"' :: ':' :: ' ' :: '"' ::
      (escapeStr p.2 ++ '"' :: tail)) := by
  obtain ⟨k, v⟩ := p
  simp only [dumpPair, List.cons_append, List.append_assoc, List.nil_append]

theorem parseMembers_dump (ps : List (Str × Str)) (fuel : Nat)
    (hne : ps ≠ []) (hfuel : ps.length ≤ fuel) :
    parseMembers fuel (skipWs (dumpMembers ps ++ ['\n', rbrace])) = some ps := by
  induction ps generalizing fuel with
  | nil => exact absurd rfl hne
  | cons p ps ih =>
    obtain ⟨fuel, rfl⟩ : ∃ f, fuel = f + 1 :=
      ⟨fuel - 1, by simp at hfuel; omega⟩
    cases ps with
    | nil =>
      rw [dumpMembers, List.append_assoc, skipWs_indent4]
      rw [dumpPair_cons, skipWs_quote, ← dumpPair_cons]
      rw [parseMembers, parsePair_dump]
      rfl
    | cons q ps' =>
      rw [dumpMembers]
      rw [List.append_assoc, List.append_assoc, skipWs_indent4]
      rw [List.cons_append, List.cons_append]
      rw [dumpPair_cons, skipWs_quote, ← dumpPair_cons]
      rw [parseMembers, parsePair_dump]
      simp only [skipWs_comma, skipWs_nl, eq_self_iff_true, if_true]
      rw [ih fuel (by simp) (by simp at hfuel ⊢; omega)]
      rfl

theorem length_dumpMembers_ge (ps : List (Str × Str)) :
    ps.length ≤ (dumpMembers ps).length := by
  induction ps with
  | nil => simp [dumpMembers]
  | cons p ps ih =>
    cases ps with
    | nil => simp [dumpMembers, indent4]
    | cons q ps' =>
      rw [dumpMembers]
      simp only [List.length_append, List.length_cons, List.length_nil] at ih ⊢
      simp [indent4]
      omega

theorem parseJson_dumpJson (ps : List (Str × Str)) :
    parseJson (dumpJson ps) = some ps := by
  cases ps with
  | nil => rfl
  | cons p rest =>
    rw [dumpJson]
    have hfuel : (p :: rest).length ≤
        (lbrace :: '\n' :: (dumpMembers (p :: rest) ++ ['\n', rbrace])).length + 1 := by
      have := length_dumpMembers_ge (p :: rest)
      simp only [List.length_cons, List.length_append] at this ⊢
      omega
    obtain ⟨y, hy⟩ : ∃ y, skipWs (dumpMembers (p :: rest) ++ ['\n', rbrace]) = '"' :: y := by
      cases rest with
      | nil =>
        rw [dumpMembers, List.append_assoc, skipWs_indent4, dumpPair_cons, skipWs_quote]
        exact ⟨_, rfl⟩
      | cons q ps' =>
        rw [dumpMembers, List.append_assoc, List.append_assoc, skipWs_indent4]
        rw [List.cons_append, List.cons_append]
        rw [dumpPair_cons, skipWs_quote]
        exact ⟨_, rfl⟩
    have hne1 : ¬ (('"' : Char) = rbrace) := by decide
    simp only [parseJson, skipWs_lbrace, skipWs_nl, hy, eq_self_iff_true, if_true]
    rw [if_neg hne1]
    rw [← hy]
    rw [parseMembers_dump (p :: rest) _ (by simp) hfuel]

theorem foldl_dictInsert_nodup_aux (ps acc : Snapshot)
    (h : (keys (acc ++ ps)).Nodup) :
    ps.foldl (fun m p => dictInsert m p.1 p.2) acc = acc ++ ps := by
  induction ps generalizing acc with
  | nil => simp
  | cons p ps ih =>
    obtain ⟨k, v⟩ := p
    rw [List.foldl_cons]
    have hknotin : k ∉ keys acc := by
      rw [keys_append, keys_cons] at h
      intro hc
      exact (List.nodup_append.mp h).2.2 hc (List.mem_cons_self k _)
    have hins : dictInsert acc k v = acc ++ [(k, v)] := by
      unfold dictInsert
      rw [(lookup?_eq_none_iff k acc).mpr hknotin]
      simp
    rw [hins]
    have hre : (acc ++ [(k, v)]) ++ ps = acc ++ ((k, v) :: ps) := by simp
    rw [ih (acc ++ [(k, v)]) (by rw [hre]; exact h)]
    rw [hre]

theorem parseSnapshot_dumpJson (S : Snapshot) (h : (keys S).Nodup) :
    parseSnapshot (dumpJson S) = some S := by
  unfold parseSnapshot
  rw [parseJson_dumpJson]
  simp only [Option.map_some']
  congr 1
  exact foldl_dictInsert_nodup_aux S [] (by simpa using h)

/-! ## Scanner lemmas -/

theorem pathJoin_inj_name (d a b : Str) (h : pathJoin d a = pathJoin d b) : a = b := by
  unfold pathJoin at h
  have h2 := List.append_cancel_left h
  injection h2

theorem walkTuples_file (path : Str) (r : Bool) (c : List Nat) :
    walkTuples path (FSNode.file r c) = [] := by
  simp [walkTuples]

theorem walkTuples_dir (path : Str) (entries : List (Str × FSNode)) :
    walkTuples path (FSNode.dir entries) =
      (path, fileEntries entries) :: walkEntries path entries := by
  simp [walkTuples]

theorem walk_take_one (path : Str) (entries : List (Str × FSNode)) :
    (walkTuples path (FSNode.dir entries)).take 1 = [(path, fileEntries entries)] := by
  rw [walkTuples_dir]
  rfl

theorem scanFolder_nil (d : Str) (acc : Snapshot × List Str) :
    scanFolder d [] acc = acc := rfl

theorem scanFolder_cons_readable (d n : Str) (c : List Nat)
    (fs : List (Str × Bool × List Nat)) (acc : Snapshot × List Str) :
    scanFolder d ((n, true, c) :: fs) acc =
      scanFolder d fs (dictInsert acc.1 (pathJoin d n) (sha256Hex c), acc.2) := rfl

theorem scanFolder_cons_unreadable (d n : Str) (c : List Nat)
    (fs : List (Str × Bool × List Nat)) (acc : Snapshot × List Str) :
    scanFolder d ((n, false, c) :: fs) acc =
      scanFolder d fs (acc.1, acc.2 ++ [pathJoin d n]) := rfl

theorem scanFolder_nodup (d : Str) (fs : List (Str × Bool × List Nat))
    (acc : Snapshot × List Str) (h : (keys acc.1).Nodup) :
    (keys (scanFolder d fs acc).1).Nodup := by
  induction fs generalizing acc with
  | nil => exact h
  | cons f fs ih =>
    obtain ⟨n, r, c⟩ := f
    cases r
    · rw [scanFolder_cons_unreadable]
      exact ih _ h
    · rw [scanFolder_cons_readable]
      exact ih _ (nodup_keys_dictInsert _ _ _ h)

theorem scanFolder_lookup_frame (d : Str) (fs : List (Str × Bool × List Nat))
    (acc : Snapshot × List Str) (p : Str)
    (hng : ∀ f ∈ fs, f.2.1 = true → ¬ pathJoin d f.1 = p) :
    lookup? p (scanFolder d fs acc).1 = lookup? p acc.1 := by
  induction fs generalizing acc with
  | nil => rfl
  | cons f fs ih =>
    obtain ⟨n, r, c⟩ := f
    cases r
    · rw [scanFolder_cons_unreadable]
      exact ih _ (fun g hg => hng g (List.mem_cons_of_mem _ hg))
    · rw [scanFolder_cons_readable]
      rw [ih _ (fun g hg => hng g (List.mem_cons_of_mem _ hg))]
      exact lookup?_dictInsert_ne _ _ _ _
        (fun hc => hng (n, true, c) (List.mem_cons_self _ _) rfl hc.symm)

theorem scanFolder_lookup_readable (d : Str) (fs : List (Str × Bool × List Nat))
    (acc : Snapshot × List Str) (n : Str) (c : List Nat)
    (hnd : (fs.map (fun f => f.1)).Nodup) (hmem : (n, true, c) ∈ fs) :
    lookup? (pathJoin d n) (scanFolder d fs acc).1 = some (sha256Hex c) := by
  induction fs generalizing acc with
  | nil => simp at hmem
  | cons f fs ih =>
    obtain ⟨m0, r, c0⟩ := f
    rw [List.map_cons, List.nodup_cons] at hnd
    rcases List.mem_cons.mp hmem with heq | htail
    · injection heq with h1 h23
      injection h23 with h2 h3
      subst h1
      subst h3
      rw [← h2, scanFolder_cons_readable]
      rw [scanFolder_lookup_frame]
      · exact lookup?_dictInsert_self _ _ _
      · intro g hg _ hc
        have hgu : g.1 = n := pathJoin_inj_name d g.1 n hc
        exact hnd.1 (hgu ▸ List.mem_map.mpr ⟨g, hg, rfl⟩)
    · cases r
      · rw [scanFolder_cons_unreadable]
        exact ih _ hnd.2 htail
      · rw [scanFolder_cons_readable]
        exact ih _ hnd.2 htail

theorem scanFolder_lookup_unreadable (d : Str) (fs : List (Str × Bool × List Nat))
    (acc : Snapshot × List Str) (u : Str) (cu : List Nat)
    (hnd : (fs.map (fun f => f.1)).Nodup) (hmem : (u, false, cu) ∈ fs)
    (hacc : lookup? (pathJoin d u) acc.1 = none) :
    lookup? (pathJoin d u) (scanFolder d fs acc).1 = none := by
  rw [scanFolder_lookup_frame d fs acc _ ?hng]
  · exact hacc
  case hng =>
    intro g hg hr hc
    have hgu : g.1 = u := pathJoin_inj_name d g.1 u hc
    have hgeq : g = (u, false, cu) := by
      apply List.inj_on_of_nodup_map hnd hg hmem
      exact hgu
    rw [hgeq] at hr
    exact Bool.false_ne_true hr

theorem scanFolder_errors (d : Str) (fs : List (Str × Bool × List Nat))
    (acc : Snapshot × List Str) :
    (scanFolder d fs acc).2 = acc.2 ++ fs.filterMap
      (fun f => if f.2.1 = true then none else some (pathJoin d f.1)) := by
  induction fs generalizing acc with
  | nil => simp [scanFolder]
  | cons f fs ih =>
    obtain ⟨n, r, c⟩ := f
    cases r
    · rw [scanFolder_cons_unreadable, ih]
      simp [List.filterMap_cons]
    · rw [scanFolder_cons_readable, ih]
      simp [List.filterMap_cons]

theorem scanFolder_keys_sub (d : Str) (fs : List (Str × Bool × List Nat))
    (acc : Snapshot × List Str) (p : Str)
    (hp : p ∈ keys (scanFolder d fs acc).1) :
    p ∈ keys acc.1 ∨ ∃ n c, (n, true, c) ∈ fs ∧ p = pathJoin d n := by
  induction fs generalizing acc with
  | nil => exact Or.inl hp
  | cons f fs ih =>
    obtain ⟨n, r, c⟩ := f
    cases r
    · rw [scanFolder_cons_unreadable] at hp
      rcases ih _ hp with h | ⟨n', c', hmem2, hpe⟩
      · exact Or.inl h
      · exact Or.inr ⟨n', c', List.mem_cons_of_mem _ hmem2, hpe⟩
    · rw [scanFolder_cons_readable] at hp
      rcases ih _ hp with h | ⟨n', c', hmem2, hpe⟩
      · rw [keys_dictInsert] at h
        by_cases hmem3 : pathJoin d n ∈ keys acc.1
        · rw [if_pos hmem3] at h
          exact Or.inl h
        · rw [if_neg hmem3] at h
          rcases List.mem_append.mp h with h1 | h2
          · exact Or.inl h1
          · simp at h2
            exact Or.inr ⟨n, c, List.mem_cons_self _ _, h2⟩
      · exact Or.inr ⟨n', c', List.mem_cons_of_mem _ hmem2, hpe⟩

theorem fileEntries_mem_file (entries : List (Str × FSNode)) (n : Str) (r : Bool)
    (c : List Nat) (h : (n, FSNode.file r c) ∈ entries) :
    (n, r, c) ∈ fileEntries entries :=
  List.mem_filterMap.mpr ⟨(n, FSNode.file r c), h, rfl⟩

theorem fileEntries_mem_inv (entries : List (Str × FSNode))
    (f : Str × Bool × List Nat) (h : f ∈ fileEntries entries) :
    (f.1, FSNode.file f.2.1 f.2.2) ∈ entries := by
  obtain ⟨e, hmem, hf⟩ := List.mem_filterMap.mp h
  obtain ⟨m, node⟩ := e
  cases node with
  | file r c =>
    simp only at hf
    injection hf with hf
    subst hf
    exact hmem
  | dir es => simp at hf

theorem fileEntries_names_sublist (entries : List (Str × FSNode)) :
    List.Sublist ((fileEntries entries).map (fun f => f.1)) (entries.map Prod.fst) := by
  induction entries with
  | nil => simp [fileEntries]
  | cons e rest ih =>
    obtain ⟨m, node⟩ := e
    cases node with
    | file r c =>
      simp only [fileEntries, List.filterMap_cons, List.map_cons] at ih ⊢
      exact List.Sublist.cons₂ _ ih
    | dir es =>
      simp only [fileEntries, List.filterMap_cons, List.map_cons] at ih ⊢
      exact List.Sublist.cons _ ih

theorem fileEntries_names_nodup (entries : List (Str × FSNode))
    (h : (entries.map Prod.fst).Nodup) :
    ((fileEntries entries).map (fun f => f.1)).Nodup :=
  h.sublist (fileEntries_names_sublist entries)

theorem scanWalk_single (t : Str × List (Str × Bool × List Nat)) :
    scanWalk [t] = scanFolder t.1 t.2 ([], []) := rfl

theorem scanWalk_nodup (ts : List (Str × List (Str × Bool × List Nat))) :
    (keys (scanWalk ts).1).Nodup := by
  suffices h : ∀ acc : Snapshot × List Str, (keys acc.1).Nodup →
      (keys (ts.foldl (fun a t => scanFolder t.1 t.2 a) acc).1).Nodup by
    exact h ([], []) (by simp [keys])
  induction ts with
  | nil => exact fun acc h => h
  | cons t ts ih =>
    intro acc h
    rw [List.foldl_cons]
    exact ih _ (scanFolder_nodup _ _ _ h)

theorem monitor_directory_none (saveOk : Bool) (rootPath : Str) (recursive : Bool)
    (st : MonitorState) :
    monitor_directory saveOk none rootPath recursive st =
      { dirMissingMsg := true, readErrors := [], printed := [],
        state := st, ret := some false } := rfl

theorem compare_hashes_true_eq (st : MonitorState) (current : Snapshot) :
    compare_hashes true st current =
      { printed := compare_records st.file_hashes current,
        state := { file_hashes := current, disk := some (save_hashes current) },
        ret := some (!(compare_records st.file_hashes current).isEmpty) } := rfl

theorem compare_hashes_false_eq (st : MonitorState) (current : Snapshot) :
    compare_hashes false st current =
      { printed := compare_records st.file_hashes current,
        state := { file_hashes := current, disk := st.disk },
        ret := none } := rfl

theorem monitor_directory_some_eq (saveOk : Bool) (node : FSNode) (rootPath : Str)
    (recursive : Bool) (st : MonitorState) :
    monitor_directory saveOk (some node) rootPath recursive st =
      { dirMissingMsg := false,
        readErrors := (scanWalk (if recursive then walkTuples rootPath node
          else (walkTuples rootPath node).take 1)).2,
        printed := (compare_hashes saveOk st (scanWalk (if recursive then
          walkTuples rootPath node else (walkTuples rootPath node).take 1)).1).printed,
        state := (compare_hashes saveOk st (scanWalk (if recursive then
          walkTuples rootPath node else (walkTuples rootPath node).take 1)).1).state,
        ret := (compare_hashes saveOk st (scanWalk (if recursive then
          walkTuples rootPath node else (walkTuples rootPath node).take 1)).1).ret } := rfl

theorem monitor_directory_file_eq (saveOk : Bool) (readable : Bool)
    (content : List Nat) (rootPath : Str) (recursive : Bool) (st : MonitorState) :
    monitor_directory saveOk (some (FSNode.file readable content)) rootPath
      recursive st =
      { dirMissingMsg := false, readErrors := [],
        printed := (compare_hashes saveOk st []).printed,
        state := (compare_hashes saveOk st []).state,
        ret := (compare_hashes saveOk st []).ret } := by
  rw [monitor_directory_some_eq, walkTuples_file]
  cases recursive <;> rfl

/-! ## Supporting facts used by several claims -/

theorem compare_hashes_file_hashes (saveOk : Bool) (st : MonitorState)
    (current : Snapshot) :
    (compare_hashes saveOk st current).state.file_hashes = current := by
  cases saveOk <;> rfl

/-! ## Claim theorems -/

/-- C1: for every previous snapshot and current scan mapping (with the
distinct keys every Python dict has), `compare_hashes` emits Modified(p)
exactly for the paths present in both with different digests, Added(p)
exactly for the paths in current but not previous, Deleted(p) exactly for
the paths in previous but not current, and no record at all for a path
present in both with equal digests. -/
theorem C1_compare_classification (prev current : Snapshot)
    (hp : (keys prev).Nodup) (hc : (keys current).Nodup) :
    (∀ p, ChangeRecord.Modified p ∈ compare_records prev current ↔
      ∃ h h', lookup? p prev = some h ∧ lookup? p current = some h' ∧ h ≠ h') ∧
    (∀ p, ChangeRecord.Added p ∈ compare_records prev current ↔
      lookup? p prev = none ∧ ∃ h, lookup? p current = some h) ∧
    (∀ p, ChangeRecord.Deleted p ∈ compare_records prev current ↔
      (∃ h, lookup? p prev = some h) ∧ lookup? p current = none) ∧
    (∀ p h, lookup? p prev = some h → lookup? p current = some h →
      ∀ r ∈ compare_records prev current,
        r ≠ ChangeRecord.Modified p ∧ r ≠ ChangeRecord.Added p ∧
        r ≠ ChangeRecord.Deleted p) := by
  refine ⟨fun p => modified_mem_compare prev current hc p,
    fun p => added_mem_compare prev current p,
    fun p => deleted_mem_compare prev current p, ?_⟩
  intro p h hp1 hc1 r hr
  refine ⟨?_, ?_, ?_⟩
  · intro he
    subst he
    obtain ⟨h1, h2, e1, e2, hne⟩ := (modified_mem_compare prev current hc p).mp hr
    rw [hp1] at e1
    rw [hc1] at e2
    injection e1 with e1
    injection e2 with e2
    exact hne (e1.symm.trans e2)
  · intro he
    subst he
    obtain ⟨e1, _⟩ := (added_mem_compare prev current p).mp hr
    rw [hp1] at e1
    cases e1
  · intro he
    subst he
    obtain ⟨_, e2⟩ := (deleted_mem_compare prev current p).mp hr
    rw [hc1] at e2
    cases e2

/-- Witness for C1 at a concrete pair of mappings. -/
theorem C1_compare_classification_witness :
    (keys [(['a'], ['1']), (['b'], ['2'])]).Nodup ∧
    (keys [(['a'], ['3']), (['c'], ['4'])]).Nodup ∧
    (ChangeRecord.Modified ['a'] ∈
        compare_records [(['a'], ['1']), (['b'], ['2'])] [(['a'], ['3']), (['c'], ['4'])] ↔
      ∃ h h', lookup? ['a'] [(['a'], ['1']), (['b'], ['2'])] = some h ∧
        lookup? ['a'] [(['a'], ['3']), (['c'], ['4'])] = some h' ∧ h ≠ h') :=
  ⟨by decide, by decide,
    (C1_compare_classification [(['a'], ['1']), (['b'], ['2'])]
      [(['a'], ['3']), (['c'], ['4'])] (by decide) (by decide)).1 ['a']⟩

/-- C2 (amended): a root for which `os.path.exists` is false makes the scan
abort with the missing-directory message, no ScanResult and no state
change, returning False; but a root that exists as a non-directory is NOT
rejected — the scan proceeds over the empty `os.walk` output, reports
every previously tracked path as deleted and replaces the snapshot (in
memory and on disk) with the empty mapping. -/
theorem C2_root_existence_check (saveOk : Bool) (rootPath : Str) (recursive : Bool)
    (st : MonitorState) (readable : Bool) (content : List Nat) :
    (monitor_directory saveOk none rootPath recursive st =
      { dirMissingMsg := true, readErrors := [], printed := [],
        state := st, ret := some false }) ∧
    ((monitor_directory true (some (FSNode.file readable content)) rootPath
        recursive st).dirMissingMsg = false ∧
      (monitor_directory true (some (FSNode.file readable content)) rootPath
        recursive st).state.file_hashes = [] ∧
      (monitor_directory true (some (FSNode.file readable content)) rootPath
        recursive st).state.disk = some (dumpJson []) ∧
      (monitor_directory true (some (FSNode.file readable content)) rootPath
        recursive st).printed = compare_records st.file_hashes []) := by
  refine ⟨monitor_directory_none saveOk rootPath recursive st, ?_, ?_, ?_, ?_⟩ <;>
    rw [monitor_directory_file_eq, compare_hashes_true_eq]
  all_goals rfl

/-- C2 counterexample: with an existing non-directory root (a regular
file), a previously tracked path, and a healthy disk, the claim's "scan is
aborted, snapshot not updated" fails — the scan runs, emits a deletion,
and overwrites the persisted snapshot with the empty mapping. -/
theorem C2_counterexample :
    (monitor_directory true (some (FSNode.file true [])) ['r'] true
      { file_hashes := [(['a'], ['h'])],
        disk := some (dumpJson [(['a'], ['h'])]) }).dirMissingMsg = false ∧
    (monitor_directory true (some (FSNode.file true [])) ['r'] true
      { file_hashes := [(['a'], ['h'])],
        disk := some (dumpJson [(['a'], ['h'])]) }).printed =
      [ChangeRecord.Deleted ['a']] ∧
    (monitor_directory true (some (FSNode.file true [])) ['r'] true
      { file_hashes := [(['a'], ['h'])],
        disk := some (dumpJson [(['a'], ['h'])]) }).state.disk =
      some (dumpJson []) ∧
    some (dumpJson ([] : Snapshot)) ≠ some (dumpJson [(['a'], ['h'])]) := by
  refine ⟨?_, ?_, ?_, by decide⟩ <;> rw [monitor_directory_file_eq]
  all_goals decide

/-- C3: `save_hashes` opens the config file with mode `'w'`, truncating it
before `json.dump` writes the new text, so an interrupted save can leave
the file empty — a state that is neither the complete old mapping nor the
complete new one, from which the prior snapshot cannot be recovered. -/
theorem C3_save_not_atomic :
    some ([] : Str) ∈
      save_hashes_states (some (dumpJson [(['a'], ['h', '1'])])) [(['b'], ['h', '2'])] ∧
    some ([] : Str) ≠ some (dumpJson [(['a'], ['h', '1'])]) ∧
    some ([] : Str) ≠ some (dumpJson [(['b'], ['h', '2'])]) ∧
    load_hashes (some []) = [] ∧
    ([] : Snapshot) ≠ [(['a'], ['h', '1'])] := by
  decide

/-- C4: after every `compare_hashes` call the stored snapshot is exactly
`current_hashes` — it unconditionally replaces the previous one on line 83
and is written to disk on line 84, also when no changes were found. -/
theorem C4_snapshot_replaced_and_persisted (st : MonitorState) (current : Snapshot) :
    (compare_hashes true st current).state.file_hashes = current ∧
    (compare_hashes true st current).state.disk = some (save_hashes current) ∧
    ((compare_hashes true st current).printed.isEmpty = true →
      (compare_hashes true st current).state.disk = some (save_hashes current)) :=
  ⟨rfl, rfl, fun _ => rfl⟩

/-- C5: an unreadable file in a scanned directory is omitted from the
resulting mapping, its path is surfaced as a read error, it produces no
Deleted record (when it was not previously tracked), and the remaining
readable files are all hashed — the scan completes without aborting. -/
theorem C5_unreadable_skipped (path : Str) (entries : List (Str × FSNode))
    (st : MonitorState) (u : Str) (cu : List Nat)
    (hnd : (entries.map Prod.fst).Nodup)
    (hu : (u, FSNode.file false cu) ∈ entries)
    (hprev : lookup? (pathJoin path u) st.file_hashes = none) :
    lookup? (pathJoin path u) (monitor_directory true (some (FSNode.dir entries))
      path false st).state.file_hashes = none ∧
    pathJoin path u ∈ (monitor_directory true (some (FSNode.dir entries))
      path false st).readErrors ∧
    (∀ n c, (n, FSNode.file true c) ∈ entries →
      lookup? (pathJoin path n) (monitor_directory true (some (FSNode.dir entries))
        path false st).state.file_hashes = some (sha256Hex c)) ∧
    ChangeRecord.Deleted (pathJoin path u) ∉
      (monitor_directory true (some (FSNode.dir entries)) path false st).printed ∧
    (monitor_directory true (some (FSNode.dir entries)) path false st).dirMissingMsg
      = false ∧
    (monitor_directory true (some (FSNode.dir entries)) path false st).ret.isSome
      = true := by
  rw [monitor_directory_some_eq]
  rw [if_neg (by decide : ¬ (false = true))]
  rw [walk_take_one, scanWalk_single]
  have hnd2 : ((fileEntries entries).map (fun f => f.1)).Nodup :=
    fileEntries_names_nodup entries hnd
  have hu2 : (u, false, cu) ∈ fileEntries entries := fileEntries_mem_file entries u false cu hu
  refine ⟨?_, ?_, ?_, ?_, rfl, ?_⟩
  · rw [compare_hashes_file_hashes]
    exact scanFolder_lookup_unreadable path (fileEntries entries) ([], []) u cu hnd2 hu2 rfl
  · rw [scanFolder_errors]
    simp only [List.nil_append]
    exact List.mem_filterMap.mpr ⟨(u, false, cu), hu2, by simp⟩
  · intro n c hn
    rw [compare_hashes_file_hashes]
    exact scanFolder_lookup_readable path (fileEntries entries) ([], []) n c hnd2
      (fileEntries_mem_file entries n true c hn)
  · rw [compare_hashes_true_eq]
    intro hmem
    obtain ⟨⟨h, e⟩, _⟩ :=
      (deleted_mem_compare st.file_hashes _ (pathJoin path u)).mp hmem
    rw [hprev] at e
    cases e
  · rw [compare_hashes_true_eq]
    rfl

/-- Witness for C5: a directory with one permission-denied file and one
normal file yields a mapping holding only the normal file, one surfaced
read error, and a completed scan. -/
theorem C5_unreadable_skipped_witness :
    lookup? (pathJoin ['d'] ['b', 'a', 'd'])
      (monitor_directory true (some (FSNode.dir
        [(['b', 'a', 'd'], FSNode.file false []),
         (['g', 'o', 'o', 'd'], FSNode.file true [104])]))
        ['d'] false { file_hashes := [], disk := none }).state.file_hashes = none ∧
    pathJoin ['d'] ['b', 'a', 'd'] ∈
      (monitor_directory true (some (FSNode.dir
        [(['b', 'a', 'd'], FSNode.file false []),
         (['g', 'o', 'o', 'd'], FSNode.file true [104])]))
        ['d'] false { file_hashes := [], disk := none }).readErrors ∧
    lookup? (pathJoin ['d'] ['g', 'o', 'o', 'd'])
      (monitor_directory true (some (FSNode.dir
        [(['b', 'a', 'd'], FSNode.file false []),
         (['g', 'o', 'o', 'd'], FSNode.file true [104])]))
        ['d'] false { file_hashes := [], disk := none }).state.file_hashes =
      some (sha256Hex [104]) ∧
    (monitor_directory true (some (FSNode.dir
        [(['b', 'a', 'd'], FSNode.file false []),
         (['g', 'o', 'o', 'd'], FSNode.file true [104])]))
        ['d'] false { file_hashes := [], disk := none }).ret.isSome = true := by
  have h := C5_unreadable_skipped ['d']
    [(['b', 'a', 'd'], FSNode.file false []),
     (['g', 'o', 'o', 'd'], FSNode.file true [104])]
    { file_hashes := [], disk := none } ['b', 'a', 'd'] []
    (by decide) (List.mem_cons_self _ _) rfl
  exact ⟨h.1, h.2.1,
    h.2.2.1 ['g', 'o', 'o', 'd'] [104] (List.mem_cons_of_mem _ (List.mem_cons_self _ _)),
    h.2.2.2.2.2⟩

/-- C6: a config file that is missing, or whose content does not parse as
a string-to-string JSON object (truncated or otherwise invalid), loads as
the empty snapshot; the load path reports nothing and never fails. -/
theorem C6_load_recovers_empty (disk : Option Str)
    (h : disk = none ∨ ∃ s, disk = some s ∧ parseJson s = none) :
    load_hashes disk = [] := by
  rcases h with h | ⟨s, hd, hp⟩
  · rw [h]
    rfl
  · rw [hd]
    show (parseSnapshot s).getD [] = []
    unfold parseSnapshot
    rw [hp]
    rfl

/-- Witness for C6: a missing file, a garbage file and a truncated dump of
a real snapshot all load as the empty snapshot. -/
theorem C6_load_recovers_empty_witness :
    load_hashes none = [] ∧
    load_hashes (some ['n', 'o', 't', ' ', 'j', 's', 'o', 'n']) = [] ∧
    load_hashes (some ((dumpJson [(['a'], ['h', '1'])]).take 5)) = [] :=
  ⟨C6_load_recovers_empty none (Or.inl rfl),
   C6_load_recovers_empty _ (Or.inr ⟨_, rfl, by decide⟩),
   C6_load_recovers_empty _ (Or.inr ⟨_, rfl, by decide⟩)⟩

/-- C7: a non-recursive scan of a directory root puts only paths of files
directly inside the root into the resulting mapping: every key is
`root/name` for some regular-file child `name`, so no subdirectory file at
any depth appears. -/
theorem C7_nonrecursive_top_level_only (saveOk : Bool) (path : Str)
    (entries : List (Str × FSNode)) (st : MonitorState) (p : Str)
    (hp : p ∈ keys (monitor_directory saveOk (some (FSNode.dir entries))
      path false st).state.file_hashes) :
    ∃ n c, (n, FSNode.file true c) ∈ entries ∧ p = pathJoin path n := by
  rw [monitor_directory_some_eq, compare_hashes_file_hashes,
    if_neg (by decide : ¬ (false = true)), walk_take_one, scanWalk_single] at hp
  rcases scanFolder_keys_sub path (fileEntries entries) ([], []) p hp with h | ⟨n, c, hmem, hpe⟩
  · simp [keys] at h
  · exact ⟨n, c, fileEntries_mem_inv entries (n, true, c) hmem, hpe⟩

/-- Witness for C7 on the spec's boundary scenario: root holds `x` and a
subdirectory `s` holding `y`; the non-recursive scan's mapping contains
`r/x`, any key is a top-level join, and `r/s/y` is absent. -/
theorem C7_nonrecursive_top_level_only_witness :
    pathJoin ['r'] ['x'] ∈ keys (monitor_directory true (some (FSNode.dir
      [(['x'], FSNode.file true [1]), (['s'], FSNode.dir
        [(['y'], FSNode.file true [2])])])) ['r'] false
      { file_hashes := [], disk := none }).state.file_hashes ∧
    (∃ n c, (n, FSNode.file true c) ∈
        [(['x'], FSNode.file true [1]), (['s'], FSNode.dir
          [(['y'], FSNode.file true [2])])] ∧
      pathJoin ['r'] ['x'] = pathJoin ['r'] n) ∧
    pathJoin (pathJoin ['r'] ['s']) ['y'] ∉ keys (monitor_directory true
      (some (FSNode.dir [(['x'], FSNode.file true [1]), (['s'], FSNode.dir
        [(['y'], FSNode.file true [2])])])) ['r'] false
      { file_hashes := [], disk := none }).state.file_hashes := by
  have hm : (monitor_directory true (some (FSNode.dir
      [(['x'], FSNode.file true [1]), (['s'], FSNode.dir
        [(['y'], FSNode.file true [2])])])) ['r'] false
      { file_hashes := [], disk := none }).state.file_hashes =
      (scanFolder ['r'] (fileEntries
        [(['x'], FSNode.file true [1]), (['s'], FSNode.dir
          [(['y'], FSNode.file true [2])])]) ([], [])).1 := by
    rw [monitor_directory_some_eq, compare_hashes_file_hashes,
      if_neg (by decide : ¬ (false = true)), walk_take_one, scanWalk_single]
  refine ⟨?_, ?_, ?_⟩
  · rw [hm]; decide
  · exact C7_nonrecursive_top_level_only true ['r'] _ _ _ (by rw [hm]; decide)
  · rw [hm]; decide

/-- C8: classifying a snapshot against an identical current mapping emits
no records and reports no change; consequently a second scan over an
unchanged filesystem prints zero records and returns False. -/
theorem C8_idempotent (S : Snapshot) (hS : (keys S).Nodup)
    (root : Option FSNode) (rootPath : Str) (recursive : Bool)
    (st : MonitorState) :
    (compare_records S S = [] ∧
      (compare_hashes true { file_hashes := S, disk := st.disk } S).ret = some false) ∧
    ((monitor_directory true root rootPath recursive
        ((monitor_directory true root rootPath recursive st).state)).printed = [] ∧
      (monitor_directory true root rootPath recursive
        ((monitor_directory true root rootPath recursive st).state)).ret = some false) := by
  constructor
  · refine ⟨compare_records_self S hS, ?_⟩
    rw [compare_hashes_true_eq]
    simp [compare_records_self S hS]
  · cases root with
    | none => exact ⟨rfl, rfl⟩
    | some node =>
      simp only [monitor_directory_some_eq, compare_hashes_true_eq]
      have hnod := scanWalk_nodup (if recursive then walkTuples rootPath node
        else (walkTuples rootPath node).take 1)
      constructor
      · exact compare_records_self _ hnod
      · simp [compare_records_self _ hnod]

/-- Witness for C8 at a concrete snapshot and a concrete double run. -/
theorem C8_idempotent_witness :
    (keys [(['a'], ['1'])]).Nodup ∧
    compare_records [(['a'], ['1'])] [(['a'], ['1'])] = [] ∧
    (monitor_directory true (some (FSNode.file true [])) ['r'] true
      ((monitor_directory true (some (FSNode.file true [])) ['r'] true
        { file_hashes := [], disk := none }).state)).printed = [] :=
  ⟨by decide,
   (C8_idempotent [(['a'], ['1'])] (by decide) none [] true
     { file_hashes := [], disk := none }).1.1,
   (C8_idempotent [] (by decide) (some (FSNode.file true [])) ['r'] true
     { file_hashes := [], disk := none }).2.1⟩

/-- C9: saving any snapshot (distinct keys, arbitrary characters including
spaces and non-ASCII) and loading the written file reproduces exactly the
same snapshot. -/
theorem C9_save_load_roundtrip (S : Snapshot) (h : (keys S).Nodup) :
    load_hashes (some (save_hashes S)) = S := by
  show (parseSnapshot (dumpJson S)).getD [] = S
  rw [parseSnapshot_dumpJson S h]
  rfl

/-- Witness for C9 with a path containing a space and a non-ASCII path. -/
theorem C9_save_load_roundtrip_witness :
    (keys [(['a', ' ', 'b'], ['0', '1']), (['п'], ['f', 'f'])]).Nodup ∧
    load_hashes (some (save_hashes
      [(['a', ' ', 'b'], ['0', '1']), (['п'], ['f', 'f'])])) =
      [(['a', ' ', 'b'], ['0', '1']), (['п'], ['f', 'f'])] :=
  ⟨by decide, C9_save_load_roundtrip _ (by decide)⟩

/-- C10: line 83 reassigns `self.file_hashes` before line 84 attempts the
save, so even when `save_hashes` raises, the in-memory snapshot equals
`current_hashes`, the old disk content is untouched, no value is returned,
and a subsequent diff runs against the new unsaved mapping. -/
theorem C10_memory_updated_before_save (st : MonitorState)
    (current next : Snapshot) :
    (compare_hashes false st current).state.file_hashes = current ∧
    (compare_hashes false st current).state.disk = st.disk ∧
    (compare_hashes false st current).ret = none ∧
    (compare_hashes false st current).printed = compare_records st.file_hashes current ∧
    compare_records (compare_hashes false st current).state.file_hashes next =
      compare_records current next ∧
    (∀ saveOk, (compare_hashes saveOk st current).state.file_hashes = current) :=
  ⟨rfl, rfl, rfl, rfl, rfl, fun saveOk => compare_hashes_file_hashes saveOk st current⟩

end FIM